import Mathlib

/-!
Verification of the devmind core pipeline (scan, classify, cluster, plan,
execute, rollback) against its natural-language specification.

The Python source is shallowly embedded: paths are modelled as strings (posix
form), the filesystem as a function from paths to optional file contents,
dictionaries as association lists in insertion order, and the journal as the
list of records appended by the executor.  Wall-clock timestamps are supplied
as an explicit parameter.  Console output, directory creation (which never
creates or removes regular files) and the sqlite cache are irrelevant to the
claims and are not modelled.
-/

namespace Devmind

/-! ### Decimal rendering of naturals

Models the decimal rendering performed by Python f-strings, such as the
interpolation of the retry counter in resolve_target_path.  The recursion is
structural (fuel equals the number itself) so that all definitions evaluate by
kernel reduction. -/

/-- Least-significant-first decimal digits of a natural number; the first
argument is fuel, always called with fuel at least the number. -/
def digitsAux : Nat → Nat → List Nat
  | _, 0 => []
  | 0, _ + 1 => []
  | fuel + 1, n + 1 => ((n + 1) % 10) :: digitsAux fuel ((n + 1) / 10)

/-- Decimal digits of a natural number, least significant first. -/
def decimalDigits (n : Nat) : List Nat := digitsAux n n

/-- Value of a least-significant-first digit list. -/
def digitsVal : List Nat → Nat
  | [] => 0
  | d :: ds => d + 10 * digitsVal ds

/-- Decimal string of a natural number, as produced by Python str formatting. -/
def decimalRepr (n : Nat) : String :=
  if n = 0 then "0"
  else ⟨((decimalDigits n).map Nat.digitChar).reverse⟩

/-! ### Filesystem model and the executor (src/devmind/organizer.py) together
with the rollback engine (src/devmind/rollback.py)

The filesystem is a function from path strings to optional file contents
(contents abstracted as naturals).  shutil.move replaces the destination and
vacates the source; shutil.copy2 replaces the destination and keeps the
source.  ensure_directory only creates directories, which never adds or
removes a regular file, so it is a no-op on this state. -/

/-- Filesystem state: which regular file content, if any, sits at each path. -/
def FS : Type := String → Option Nat

/-- Effect of shutil.move src dst on the filesystem state. -/
def fsMove (fs : FS) (src dst : String) : FS :=
  fun p => if p = dst then fs src else if p = src then none else fs p

/-- Effect of shutil.copy2 src dst on the filesystem state. -/
def fsCopy (fs : FS) (src dst : String) : FS :=
  fun p => if p = dst then fs src else fs p

/-- OrganizePlan from src/devmind/config.py. -/
structure OrganizePlan where
  doc_id : String
  project_id : String
  project_label : String
  bucket : String
  source_path : String
  target_path : String
  hash_suffix : String
deriving Repr, DecidableEq

/-- One journal record exactly as the dict literal built inside execute_plans
(src/devmind/organizer.py lines 149-161): its fields, in source order, are
original_path, target_path, doc_id, project_id, project_label, bucket,
hash_suffix, timestamp, status. -/
structure JournalRecord where
  original_path : String
  target_path : String
  doc_id : String
  project_id : String
  project_label : String
  bucket : String
  hash_suffix : String
  timestamp : Nat
  status : String
deriving Repr, DecidableEq

/-- The record execute_plans appends for one plan. -/
def mkRecord (plan : OrganizePlan) (ts : Nat) (status : String) : JournalRecord :=
  { original_path := plan.source_path
    target_path := plan.target_path
    doc_id := plan.doc_id
    project_id := plan.project_id
    project_label := plan.project_label
    bucket := plan.bucket
    hash_suffix := plan.hash_suffix
    timestamp := ts
    status := status }

/-- Body of the loop in execute_plans: if the source no longer exists the plan
is journalled as missing with no mutation; otherwise the file is moved when
mode equals "move" and copied otherwise. -/
def executeStep (mode : String) (ts : Nat) (st : FS × List JournalRecord)
    (plan : OrganizePlan) : FS × List JournalRecord :=
  if (st.1 plan.source_path).isSome then
    let fs1 := if mode = "move" then fsMove st.1 plan.source_path plan.target_path
               else fsCopy st.1 plan.source_path plan.target_path
    (fs1, st.2 ++ [mkRecord plan ts (if mode = "move" then "moved" else "copied")])
  else
    (st.1, st.2 ++ [mkRecord plan ts "missing"])

/-- execute_plans (src/devmind/organizer.py lines 133-166): runs every plan in
order and returns the final filesystem together with the journal entries
appended to the journal file. -/
def execute_plans (plans : List OrganizePlan) (mode : String) (fs : FS) (ts : Nat) :
    FS × List JournalRecord :=
  plans.foldl (executeStep mode ts) (fs, [])

/-- Body of the loop in rollback_from_journal: an entry whose target path
currently exists is moved back onto its original path; the pair of paths of
each performed move is recorded so that the theorems can speak about which
filesystem moves happened. -/
def rollbackStep (st : FS × List (String × String)) (entry : JournalRecord) :
    FS × List (String × String) :=
  if (st.1 entry.target_path).isSome then
    (fsMove st.1 entry.target_path entry.original_path,
      st.2 ++ [(entry.target_path, entry.original_path)])
  else
    st

/-- rollback_from_journal (src/devmind/rollback.py lines 15-36): replays the
journal entries in reverse order, returning the final filesystem and the list
of moves that were performed. -/
def rollback_from_journal (entries : List JournalRecord) (fs : FS) :
    FS × List (String × String) :=
  entries.reverse.foldl rollbackStep (fs, [])

/-- Source paths of a plan list. -/
def planSources (plans : List OrganizePlan) : List String :=
  plans.map (fun p => p.source_path)

/-- Target paths of a plan list. -/
def planTargets (plans : List OrganizePlan) : List String :=
  plans.map (fun p => p.target_path)

/-! ### Path string helpers

Paths are posix strings.  pathName, pathStem and pathSuffix model the Python
pathlib accessors name, stem and suffix used by the planner. -/

/-- First-match association list lookup, modelling Python dict.get. -/
def alookup {α : Type} : List (String × α) → String → Option α
  | [], _ => none
  | (k, v) :: rest, key => if key = k then some v else alookup rest key

/-- dict.get with a default. -/
def alookupD {α : Type} (l : List (String × α)) (key : String) (d : α) : α :=
  (alookup l key).getD d

/-- Final path component, as pathlib Path.name on a posix path string. -/
def pathName (s : String) : String :=
  ⟨(s.data.reverse.takeWhile (fun c => c ≠ '/')).reverse⟩

/-- Index of the last dot of a character list, if any. -/
def lastDotIdxAux : List Char → Nat → Option Nat → Option Nat
  | [], _, acc => acc
  | c :: rest, i, acc => lastDotIdxAux rest (i + 1) (if c = '.' then some i else acc)

/-- Index of the last dot of a string, if any. -/
def lastDotIdx (s : String) : Option Nat := lastDotIdxAux s.data 0 none

/-- pathlib suffix of a file name: from the last dot onwards, provided that
dot is neither the leading character nor the final one. -/
def pathSuffix (name : String) : String :=
  match lastDotIdx name with
  | some i => if 0 < i ∧ i + 1 < name.data.length then ⟨name.data.drop i⟩ else ""
  | none => ""

/-- pathlib stem of a file name: the name with its suffix removed. -/
def pathStem (name : String) : String :=
  match lastDotIdx name with
  | some i => if 0 < i ∧ i + 1 < name.data.length then ⟨name.data.take i⟩ else name
  | none => name

/-! ### The planner (src/devmind/organizer.py lines 22-130) -/

/-- BUCKET_DIRECTORY_MAP from src/devmind/organizer.py. -/
def bucketDirectoryMap : List (String × String) :=
  [("src", "src/core"), ("scripts", "scripts"), ("tests", "tests/unit"),
   ("docs", "docs"), ("reports", "reports"), ("configs", "configs"),
   ("data", "data/raw"), ("notebooks", "notebooks"), ("archive", "archive"),
   ("tmp", "tmp")]

/-- Candidate file name proposed by the collision loop at a given retry
counter: the first retry appends the 7-character digest suffix, later retries
additionally append an underscore and the counter in decimal. -/
def nameAt (stem hash suff : String) (attempt : Nat) : String :=
  if attempt = 0 then stem ++ "__" ++ hash ++ suff
  else stem ++ "__" ++ hash ++ "_" ++ decimalRepr attempt ++ suff

/-- The while loop of resolve_target_path: used holds the targets already
allocated in this project and disk the paths that exist on the filesystem.
The fuel argument makes the recursion structural; the termination theorem
shows fuel equal to the number of colliding paths plus two always suffices. -/
def resolveLoop (used disk : List String) (base stem hash suff : String) :
    Nat → String → Nat → Option String
  | 0, _, _ => none
  | fuel + 1, cand, attempt =>
    if cand ∈ used ∨ cand ∈ disk then
      resolveLoop used disk base stem hash suff fuel
        (base ++ "/" ++ nameAt stem hash suff attempt) (attempt + 1)
    else some cand

/-- resolve_target_path (src/devmind/organizer.py lines 62-86): returns the
resolved target, the hash suffix, and the updated used-target set. -/
def resolve_target_path (project_root bucket source_name digest : String)
    (used disk : List String) : String × String × List String :=
  let relative := alookupD bucketDirectoryMap bucket "archive"
  let base := project_root ++ "/" ++ relative
  let stem := pathStem source_name
  let suff := pathSuffix source_name
  let hash_suffix := digest.take 7
  let cand := (resolveLoop used disk base stem hash_suffix suff
      (used.length + disk.length + 2) (base ++ "/" ++ source_name) 0).getD
      (base ++ "/" ++ source_name)
  (cand, hash_suffix, cand :: used)

/-- Scan metadata consumed by build_plans: the path and blake3 fields of a
stored document payload. -/
structure ScanMeta where
  path : String
  blake3 : String
deriving Repr, DecidableEq

/-- SchemaConfig from src/devmind/config.py; the structure field is renamed
structure_dirs because structure is a Lean keyword. -/
structure SchemaConfig where
  target_root : String
  structure_dirs : List String
  conflict_policy : String
  mode : String
deriving Repr, DecidableEq

/-- ClusterProject from src/devmind/config.py. -/
structure ClusterProject where
  project_id : String
  project_label : String
  doc_ids : List String
  role_bucket_map : List (String × String)
  confidence : Nat
  reasons : List String
deriving Repr, DecidableEq

/-- ClusterResult from src/devmind/config.py. -/
structure ClusterResult where
  projects : List ClusterProject
deriving Repr, DecidableEq

/-- Inner document loop of build_plans for one project, threading the
used-target set exactly as the Python loop mutates it. -/
def buildDocsLoop (project_root project_id project_label : String)
    (role_map score_map : List (String × String))
    (scan_index : List (String × ScanMeta)) (disk : List String) :
    List String → List String → List OrganizePlan
  | [], _ => []
  | doc_id :: rest, used =>
    match alookup scan_index doc_id with
    | none =>
      buildDocsLoop project_root project_id project_label role_map score_map
        scan_index disk rest used
    | some md =>
      let bucket := alookupD role_map doc_id (alookupD score_map doc_id "archive")
      let r := resolve_target_path project_root bucket (pathName md.path) md.blake3
        used disk
      { doc_id := doc_id
        project_id := project_id
        project_label := project_label
        bucket := bucket
        source_path := md.path
        target_path := r.1
        hash_suffix := r.2.1 }
        :: buildDocsLoop project_root project_id project_label role_map score_map
          scan_index disk rest r.2.2

/-- Plans produced by build_plans for a single project, starting from an empty
used-target set. -/
def buildPlansProject (project : ClusterProject) (schema : SchemaConfig)
    (score_map : List (String × String)) (scan_index : List (String × ScanMeta))
    (disk : List String) : List OrganizePlan :=
  buildDocsLoop (schema.target_root ++ "/" ++ project.project_label)
    project.project_id project.project_label project.role_bucket_map score_map
    scan_index disk project.doc_ids []

/-- build_plans (src/devmind/organizer.py lines 89-130): concatenation of the
per-project plan lists, in project order. -/
def build_plans (cluster : ClusterResult) (schema : SchemaConfig)
    (score_map : List (String × String)) (scan_index : List (String × ScanMeta))
    (disk : List String) : List OrganizePlan :=
  (cluster.projects.map
    (fun project => buildPlansProject project schema score_map scan_index disk)).flatten

/-- Full candidate path (directory plus candidate name) at a retry counter. -/
def candidateAt (base stem hash suff : String) (attempt : Nat) : String :=
  base ++ "/" ++ nameAt stem hash suff attempt

/-! ### The rule classifier (src/devmind/rules_engine.py and
src/devmind/utils.py score_match)

Scores are integers: every contribution is a match count times an integer
weight; the final float conversion in the source is the identity on these
values.  Python dicts are association lists in insertion order. -/

/-- BucketRule from src/devmind/config.py. -/
structure BucketRule where
  name : String
  exts : List String
  name_keywords : List String
  dir_keywords : List String
  code_hints : List String
  imports : List String
  title_keywords : List String
deriving Repr, DecidableEq

/-- RuleConfig from src/devmind/config.py; buckets keep configuration
iteration order. -/
structure RuleConfig where
  buckets : List (String × BucketRule)
  weights : List (String × Int)
  project_hints : List String
deriving Repr, DecidableEq

/-- FileDocument from src/devmind/config.py; mtime is abstracted to a natural
number and sizes are naturals. -/
structure FileDocument where
  doc_id : String
  path : String
  name : String
  ext : String
  size : Nat
  mtime : Nat
  blake3 : String
  mimetype : String
  dir_hint : String
  imports_first : List String
  top_comment : Option String
  md_headings : List String
  json_root_keys : List String
  csv_header : List String
  sample_text : String
deriving Repr, DecidableEq

/-- ScoredDocument from src/devmind/rules_engine.py. -/
structure ScoredDocument where
  doc_id : String
  best_bucket : String
  score : Int
  reasons : List String
deriving Repr, DecidableEq

/-- Lowercasing on the character list (ASCII case mapping), modelling Python
str.lower on the inputs the pipeline handles. -/
def strLower (s : String) : String := ⟨s.data.map Char.toLower⟩

/-- Contiguous sublist test: the first list occurs as a contiguous run inside
the second. -/
def isSubListOf (sub : List Char) : List Char → Bool
  | [] => sub.isEmpty
  | c :: rest => sub.isPrefixOf (c :: rest) || isSubListOf sub rest

/-- Case-insensitive substring test, modelling keyword.lower() in value.lower(). -/
def containsKeyword (value keyword : String) : Bool :=
  isSubListOf (strLower keyword).data (strLower value).data

/-- score_match from src/devmind/utils.py lines 266-276: counts keywords
occurring case-insensitively in the value and collects the matches. -/
def score_match (value : String) (keywords : List String) : Nat × List String :=
  keywords.foldl
    (fun acc keyword =>
      if containsKeyword value keyword then (acc.1 + 1, acc.2 ++ [keyword]) else acc)
    (0, [])

/-- Total score and reason list of one document against one bucket rule: the
body of the per-bucket loop of score_document. -/
def bucketScore (document : FileDocument) (weights : List (String × Int))
    (rule : BucketRule) : Int × List String :=
  let st0 : Int × List String := (0, [])
  let st1 :=
    if document.ext ∈ rule.exts then
      (st0.1 + alookupD weights "mimetype" 1, st0.2 ++ ["ext:" ++ document.ext])
    else st0
  let nm := score_match document.name rule.name_keywords
  let st2 :=
    if nm.1 ≠ 0 then
      (st1.1 + nm.1 * alookupD weights "name" 1,
        st1.2 ++ ["name:" ++ String.intercalate "," nm.2])
    else st1
  let dm := score_match document.dir_hint rule.dir_keywords
  let st3 :=
    if dm.1 ≠ 0 then
      (st2.1 + dm.1 * alookupD weights "dir" 1,
        st2.2 ++ ["dir:" ++ String.intercalate "," dm.2])
    else st2
  let cm := score_match document.sample_text rule.code_hints
  let st4 :=
    if cm.1 ≠ 0 then
      (st3.1 + cm.1 * alookupD weights "content" 1,
        st3.2 ++ ["content:" ++ String.intercalate "," cm.2])
    else st3
  let im := score_match (String.intercalate " " document.imports_first) rule.imports
  let st5 :=
    if im.1 ≠ 0 then
      (st4.1 + im.1 * alookupD weights "content" 1,
        st4.2 ++ ["imports:" ++ String.intercalate "," im.2])
    else st4
  let tm := score_match (String.intercalate " " document.md_headings) rule.title_keywords
  if tm.1 ≠ 0 then
    (st5.1 + tm.1 * alookupD weights "content" 1,
      st5.2 ++ ["titles:" ++ String.intercalate "," tm.2])
  else st5

/-- One step of the best-bucket fold: a bucket replaces the current best only
when its score is strictly higher. -/
def scoreStep (document : FileDocument) (weights : List (String × Int))
    (best : String × Int × List String) (pr : String × BucketRule) :
    String × Int × List String :=
  let sc := bucketScore document weights pr.2
  if best.2.1 < sc.1 then
    (pr.1, sc.1, if sc.2 = [] then ["matched"] else sc.2)
  else best

/-- score_document from src/devmind/rules_engine.py lines 62-109. -/
def score_document (document : FileDocument) (rule_config : RuleConfig) :
    ScoredDocument :=
  let best := rule_config.buckets.foldl (scoreStep document rule_config.weights)
    ("archive", 0, ["fallback"])
  { doc_id := document.doc_id
    best_bucket := best.1
    score := best.2.1
    reasons := best.2.2 }

/-! ### The clusterer (src/devmind/clusterer.py)

Paths are modelled by their list of segments (pathlib parts); the parent of a
path is the list without its last segment.  Character classification uses the
ASCII alphanumeric predicate.  Confidence is held in hundredths, which is
exact for the formula min 1.0 (0.6 + 0.05 n) rounded to two decimals. -/

/-- ClusterInput from src/devmind/clusterer.py; path holds pathlib parts. -/
structure ClusterInput where
  doc_id : String
  path : List String
  name : String
  bucket : String
  dir_hint : String
deriving Repr, DecidableEq

/-- Character mapping inside normalize_label: keep alphanumerics, underscore
and hyphen, replace anything else by an underscore. -/
def normalizeLabelChar (c : Char) : Char :=
  if c.isAlphanum ∨ c = '_' ∨ c = '-' then c else '_'

/-- normalize_label from src/devmind/clusterer.py lines 25-32: map the
characters, strip underscores and spaces from both ends, lowercase. -/
def normalize_label (label : String) : String :=
  let mapped := label.data.map normalizeLabelChar
  let stripped :=
    ((mapped.dropWhile (fun c => c = '_' ∨ c = ' ')).reverse.dropWhile
      (fun c => c = '_' ∨ c = ' ')).reverse
  strLower ⟨stripped⟩

/-- infer_project_label from src/devmind/clusterer.py lines 35-46, on the
parts of a path: lowercased segments longer than two characters, a hint match
if any, else the last two segments joined, else the last segment, else the
generic label. -/
def infer_project_label (parts : List String) (hints : List String) : String :=
  let segments := (parts.filter (fun s => 2 < s.length)).map strLower
  match hints.find? (fun hint => strLower hint ∈ segments) with
  | some hint => normalize_label hint
  | none =>
    if 2 ≤ segments.length then
      normalize_label (String.intercalate "_" (segments.drop (segments.length - 2)))
    else
      match segments.getLast? with
      | some s => normalize_label s
      | none => "general_project"

/-- Label inferred for one cluster input: the parent path of the document. -/
def labelOf (hints : List String) (d : ClusterInput) : String :=
  infer_project_label d.path.dropLast hints

/-- Zero-padded three-digit decimal, as the Python format spec 03d. -/
def pad3 (n : Nat) : String :=
  if n < 10 then "00" ++ decimalRepr n
  else if n < 100 then "0" ++ decimalRepr n
  else decimalRepr n

/-- The labels of the clusters in sorted order: Python sorts the dict items of
the label grouping by label. -/
def sortedLabels (documents : List ClusterInput) (hints : List String) : List String :=
  ((documents.map (labelOf hints)).dedup).mergeSort

/-- Project construction loop: one ClusterProject per label, with sequential
identifiers and the member documents in input order. -/
def mkProjects (documents : List ClusterInput) (hints : List String)
    (score_map : List (String × String)) : Nat → List String → List ClusterProject
  | _, [] => []
  | index, label :: rest =>
    let members := documents.filter (fun d => labelOf hints d = label)
    { project_id := "project_" ++ pad3 (index + 1)
      project_label := label
      doc_ids := members.map (fun d => d.doc_id)
      role_bucket_map :=
        members.map (fun d => (d.doc_id, alookupD score_map d.doc_id d.bucket))
      confidence := min 100 (60 + 5 * members.length)
      reasons := ["grouped_by:" ++ label, "docs:" ++ decimalRepr members.length] }
      :: mkProjects documents hints score_map (index + 1) rest

/-- cluster_documents from src/devmind/clusterer.py lines 49-79. -/
def cluster_documents (documents : List ClusterInput) (hints : List String)
    (score_map : List (String × String)) : ClusterResult :=
  ⟨mkProjects documents hints score_map 0 (sortedLabels documents hints)⟩

/-! ### The journal reader (src/devmind/utils.py read_jsonl) -/

/-- One physical line of the journal file, abstracted by its parse status:
whitespace-only, unparseable JSON, or a well-formed record. -/
inductive JsonlLine where
  | blank : JsonlLine
  | malformed : JsonlLine
  | record : JournalRecord → JsonlLine
deriving Repr, DecidableEq

/-- read_jsonl (src/devmind/utils.py lines 240-246): the comprehension keeps
non-blank lines and parses each with json.loads; a parse failure raises
JSONDecodeError, modelled as the error result. -/
def read_jsonl : List JsonlLine → Except String (List JournalRecord)
  | [] => Except.ok []
  | JsonlLine.blank :: rest => read_jsonl rest
  | JsonlLine.malformed :: _ => Except.error "json.decoder.JSONDecodeError"
  | JsonlLine.record e :: rest =>
    match read_jsonl rest with
    | Except.ok es => Except.ok (e :: es)
    | Except.error msg => Except.error msg

/-- The well-formed records of a line list, in order. -/
def parsedRecords : List JsonlLine → List JournalRecord
  | [] => []
  | JsonlLine.record e :: rest => e :: parsedRecords rest
  | JsonlLine.blank :: rest => parsedRecords rest
  | JsonlLine.malformed :: rest => parsedRecords rest

/-! ### Document identity (src/devmind/utils.py generate_doc_id) -/

/-- generate_doc_id (src/devmind/utils.py lines 168-171): uuid.uuid5 over a
fixed namespace applied to the string path::digest, the path in posix form.
The uuid5 name-based hash is abstracted as the parameter uuid5, assumed
injective where needed, matching the collision-freedom assumption the spec
itself makes for the digest scheme. -/
def generate_doc_id (uuid5 : String → String) (path digest : String) : String :=
  uuid5 (path ++ "::" ++ digest)

/-! ### Journal record fields (claim about the data model) -/

/-- Field names of the dict literal appended by execute_plans, in source
order (src/devmind/organizer.py lines 149-161). -/
def journalRecordKeys : List String :=
  ["original_path", "target_path", "doc_id", "project_id", "project_label",
   "bucket", "hash_suffix", "timestamp", "status"]

/-- The journal dict written for one record, as key-value pairs; the
timestamp is serialized in decimal. -/
def recordToDict (e : JournalRecord) : List (String × String) :=
  [("original_path", e.original_path), ("target_path", e.target_path),
   ("doc_id", e.doc_id), ("project_id", e.project_id),
   ("project_label", e.project_label), ("bucket", e.bucket),
   ("hash_suffix", e.hash_suffix), ("timestamp", decimalRepr e.timestamp),
   ("status", e.status)]

/-- Modelled from the spec: the JournalEntry field list of the data model in
section 3 of the specification, which includes a content_digest field. -/
def specJournalEntryFields : List String :=
  ["original_path", "target_path", "doc_id", "content_digest", "project_id",
   "bucket", "status", "timestamp"]

/-- A concrete well-formed journal record used in counterexamples. -/
def sampleRecord : JournalRecord :=
  { original_path := "/workspace/app.py"
    target_path := "/target/proj/src/core/app.py"
    doc_id := "doc-1"
    project_id := "project_001"
    project_label := "proj"
    bucket := "src"
    hash_suffix := "abcdef0"
    timestamp := 0
    status := "moved" }

/-- Concrete plan moving a file into a project tree, used by witnesses. -/
def wplanA : OrganizePlan :=
  { doc_id := "d1", project_id := "project_001", project_label := "proj",
    bucket := "src", source_path := "/w/a.py",
    target_path := "/t/proj/src/core/a.py", hash_suffix := "1111111" }

/-- Second concrete plan with a distinct target, used by witnesses. -/
def wplanB : OrganizePlan :=
  { doc_id := "d2", project_id := "project_001", project_label := "proj",
    bucket := "src", source_path := "/w/b.py",
    target_path := "/t/proj/src/core/b.py", hash_suffix := "2222222" }

/-- Concrete filesystem holding the two witness source files. -/
def wfs : FS :=
  fun p => if p = "/w/a.py" then some 10 else if p = "/w/b.py" then some 20 else none

/-- Plan with the same target as cplanB, used by the C1 counterexample. -/
def cplanA : OrganizePlan :=
  { doc_id := "d1", project_id := "project_001", project_label := "proj",
    bucket := "src", source_path := "/w/a.py", target_path := "/t/x.py",
    hash_suffix := "1111111" }

/-- Plan with the same target as cplanA, used by the C1 counterexample. -/
def cplanB : OrganizePlan :=
  { doc_id := "d2", project_id := "project_001", project_label := "proj",
    bucket := "src", source_path := "/w/b.py", target_path := "/t/x.py",
    hash_suffix := "2222222" }

/-- Scan index for the C2 witness: two documents sharing the filename app.py. -/
def wScanIndex : List (String × ScanMeta) :=
  [("d1", { path := "/w/x/app.py", blake3 := "aaaaaaaaaa" }),
   ("d2", { path := "/w/y/app.py", blake3 := "bbbbbbbbbb" })]

/-- Project for the C2 witness. -/
def wProject : ClusterProject :=
  { project_id := "project_001", project_label := "proj", doc_ids := ["d1", "d2"],
    role_bucket_map := [("d1", "src"), ("d2", "src")], confidence := 70,
    reasons := ["grouped_by:proj"] }

/-- Schema for the C2 witness. -/
def wSchema : SchemaConfig :=
  { target_root := "/t", structure_dirs := ["src/core", "docs"],
    conflict_policy := "version", mode := "move" }

/-- Cluster result for the C2 witness. -/
def wCluster : ClusterResult := ⟨[wProject]⟩

/-- Rule bucket for the C7 witness: matches python extensions and a main
guard hint. -/
def wRuleScripts : BucketRule :=
  { name := "scripts", exts := [".py"], name_keywords := [], dir_keywords := [],
    code_hints := ["__name__"], imports := [], title_keywords := [] }

/-- Rule configuration for the C7 witness. -/
def wRules : RuleConfig :=
  { buckets := [("scripts", wRuleScripts)],
    weights := [("mimetype", 1), ("name", 4), ("dir", 3), ("content", 2)],
    project_hints := ["sample"] }

/-- Python script document for the C7 witness. -/
def wDocApp : FileDocument :=
  { doc_id := "doc-app", path := "/w/sample/app.py", name := "app.py", ext := ".py",
    size := 64, mtime := 0, blake3 := "aaaa1111", mimetype := "text/x-python",
    dir_hint := "sample", imports_first := [], top_comment := none,
    md_headings := [], json_root_keys := [], csv_header := [],
    sample_text := "if __name__ == main then run" }

/-- Markdown document matching no rule, for the C7 witness. -/
def wDocReadme : FileDocument :=
  { doc_id := "doc-readme", path := "/w/sample/README.md", name := "README.md",
    ext := ".md", size := 16, mtime := 0, blake3 := "bbbb2222",
    mimetype := "text/markdown", dir_hint := "sample", imports_first := [],
    top_comment := none, md_headings := ["Intro"], json_root_keys := [],
    csv_header := [], sample_text := "plain readme text" }

theorem digitsVal_digitsAux : ∀ fuel n, n ≤ fuel → digitsVal (digitsAux fuel n) = n := by
  intro fuel
  induction fuel with
  | zero =>
    intro n hn
    interval_cases n
    rfl
  | succ fuel ih =>
    intro n hn
    match n with
    | 0 => rfl
    | m + 1 =>
      have hdiv : (m + 1) / 10 < m + 1 := Nat.div_lt_self (Nat.succ_pos m) (by omega)
      have hle : (m + 1) / 10 ≤ fuel := by omega
      simp only [digitsAux, digitsVal, ih _ hle]
      omega

theorem digitsVal_decimalDigits (n : Nat) : digitsVal (decimalDigits n) = n :=
  digitsVal_digitsAux n n (le_refl n)

theorem decimalDigits_injective : Function.Injective decimalDigits := by
  intro a b h
  rw [← digitsVal_decimalDigits a, ← digitsVal_decimalDigits b, h]

theorem digitsAux_lt_ten : ∀ fuel n d, d ∈ digitsAux fuel n → d < 10 := by
  intro fuel
  induction fuel with
  | zero =>
    intro n d hd
    match n with
    | 0 => simp [digitsAux] at hd
    | _ + 1 => simp [digitsAux] at hd
  | succ fuel ih =>
    intro n d hd
    match n with
    | 0 => simp [digitsAux] at hd
    | m + 1 =>
      simp only [digitsAux, List.mem_cons] at hd
      rcases hd with h | h
      · omega
      · exact ih _ _ h

theorem decimalDigits_lt_ten (n : Nat) : ∀ d ∈ decimalDigits n, d < 10 :=
  fun d hd => digitsAux_lt_ten n n d hd

theorem digitChar_inj_lt :
    ∀ a b, a < 10 → b < 10 → Nat.digitChar a = Nat.digitChar b → a = b := by
  intro a b ha hb
  interval_cases a <;> interval_cases b <;> decide

theorem map_digitChar_inj :
    ∀ xs ys : List Nat, (∀ d ∈ xs, d < 10) → (∀ d ∈ ys, d < 10) →
      xs.map Nat.digitChar = ys.map Nat.digitChar → xs = ys := by
  intro xs
  induction xs with
  | nil =>
    intro ys _ _ h
    cases ys with
    | nil => rfl
    | cons y ys => simp at h
  | cons x xs ih =>
    intro ys hx hy h
    cases ys with
    | nil => simp at h
    | cons y ys =>
      simp only [List.map_cons, List.cons.injEq] at h
      have hxy : x = y :=
        digitChar_inj_lt x y (hx x (by simp)) (hy y (by simp)) h.1
      have hrest : xs = ys :=
        ih ys (fun d hd => hx d (by simp [hd])) (fun d hd => hy d (by simp [hd])) h.2
      rw [hxy, hrest]

theorem decimalRepr_injective : Function.Injective decimalRepr := by
  intro a b h
  by_cases ha : a = 0 <;> by_cases hb : b = 0
  · omega
  · exfalso
    simp only [decimalRepr, if_pos ha, if_neg hb] at h
    have hdata : ['0'] = ((decimalDigits b).map Nat.digitChar).reverse :=
      congrArg String.data h
    match hdb : decimalDigits b with
    | [] =>
      rw [hdb] at hdata
      simp at hdata
    | [d] =>
      rw [hdb] at hdata
      simp only [List.map_cons, List.map_nil, List.reverse_cons, List.reverse_nil,
        List.nil_append] at hdata
      injection hdata with h1 _
      have hd10 : d < 10 := decimalDigits_lt_ten b d (by rw [hdb]; simp)
      have hd0 : d = 0 := digitChar_inj_lt d 0 hd10 (by omega) h1.symm
      have hvb := digitsVal_decimalDigits b
      rw [hdb, hd0] at hvb
      simp [digitsVal] at hvb
      omega
    | d :: e :: rest =>
      rw [hdb] at hdata
      have hlen := congrArg List.length hdata
      simp at hlen
  · exfalso
    simp only [decimalRepr, if_neg ha, if_pos hb] at h
    have hdata : ((decimalDigits a).map Nat.digitChar).reverse = ['0'] :=
      congrArg String.data h
    match hda : decimalDigits a with
    | [] =>
      rw [hda] at hdata
      simp at hdata
    | [d] =>
      rw [hda] at hdata
      simp only [List.map_cons, List.map_nil, List.reverse_cons, List.reverse_nil,
        List.nil_append] at hdata
      injection hdata with h1 _
      have hd10 : d < 10 := decimalDigits_lt_ten a d (by rw [hda]; simp)
      have hd0 : d = 0 := digitChar_inj_lt d 0 hd10 (by omega) h1
      have hva := digitsVal_decimalDigits a
      rw [hda, hd0] at hva
      simp [digitsVal] at hva
      omega
    | d :: e :: rest =>
      rw [hda] at hdata
      have hlen := congrArg List.length hdata
      simp at hlen
  · have hdata : ((decimalDigits a).map Nat.digitChar).reverse
        = ((decimalDigits b).map Nat.digitChar).reverse := by
      simp only [decimalRepr, if_neg ha, if_neg hb] at h
      exact congrArg String.data h
    have hmap : (decimalDigits a).map Nat.digitChar = (decimalDigits b).map Nat.digitChar :=
      List.reverse_injective hdata
    exact decimalDigits_injective
      (map_digitChar_inj _ _ (decimalDigits_lt_ten a) (decimalDigits_lt_ten b) hmap)

theorem executeStep_split (m : String) (ts : Nat) (fs : FS) (J : List JournalRecord)
    (p : OrganizePlan) :
    executeStep m ts (fs, J) p
      = ((executeStep m ts (fs, []) p).1, J ++ (executeStep m ts (fs, []) p).2) := by
  by_cases h : (fs p.source_path).isSome <;> simp [executeStep, h]

theorem exec_foldl_eq (m : String) (ts : Nat) :
    ∀ (ps : List OrganizePlan) (st : FS × List JournalRecord),
      List.foldl (executeStep m ts) st ps
        = ((execute_plans ps m st.1 ts).1, st.2 ++ (execute_plans ps m st.1 ts).2) := by
  intro ps
  induction ps with
  | nil => intro st; simp [execute_plans]
  | cons p ps ih =>
    intro st
    have hl : List.foldl (executeStep m ts) st (p :: ps)
        = List.foldl (executeStep m ts) (executeStep m ts st p) ps := rfl
    have hr : execute_plans (p :: ps) m st.1 ts
        = List.foldl (executeStep m ts) (executeStep m ts (st.1, []) p) ps := rfl
    have hst : executeStep m ts st p
        = ((executeStep m ts (st.1, []) p).1, st.2 ++ (executeStep m ts (st.1, []) p).2) := by
      have := executeStep_split m ts st.1 st.2 p
      simpa using this
    rw [hl, hst, ih, hr, ih]
    simp

theorem exec_cons (m : String) (ts : Nat) (p : OrganizePlan) (ps : List OrganizePlan)
    (fs : FS) :
    execute_plans (p :: ps) m fs ts
      = ((execute_plans ps m (executeStep m ts (fs, []) p).1 ts).1,
          (executeStep m ts (fs, []) p).2
            ++ (execute_plans ps m (executeStep m ts (fs, []) p).1 ts).2) := by
  have h : execute_plans (p :: ps) m fs ts
      = List.foldl (executeStep m ts) (executeStep m ts (fs, []) p) ps := rfl
  rw [h, exec_foldl_eq]

theorem planSources_cons (p : OrganizePlan) (ps : List OrganizePlan) :
    planSources (p :: ps) = p.source_path :: planSources ps := rfl

theorem planTargets_cons (p : OrganizePlan) (ps : List OrganizePlan) :
    planTargets (p :: ps) = p.target_path :: planTargets ps := rfl

/-- Every journal entry keeps the original path and target path of its plan,
in order, regardless of mode. -/
theorem exec_journal_paths (m : String) (ts : Nat) :
    ∀ (plans : List OrganizePlan) (fs : FS),
      (execute_plans plans m fs ts).2.map (fun e => (e.original_path, e.target_path))
        = plans.map (fun p => (p.source_path, p.target_path)) := by
  intro plans
  induction plans with
  | nil => intro fs; rfl
  | cons p ps ih =>
    intro fs
    rw [exec_cons]
    by_cases h : (fs p.source_path).isSome <;>
      simp [executeStep, h, mkRecord, ih]

theorem exec_entry_mem (m : String) (ts : Nat) (plans : List OrganizePlan) (fs : FS) :
    ∀ e ∈ (execute_plans plans m fs ts).2,
      ∃ p ∈ plans, e.original_path = p.source_path ∧ e.target_path = p.target_path := by
  intro e he
  have hmem : (e.original_path, e.target_path)
      ∈ plans.map (fun p => (p.source_path, p.target_path)) := by
    rw [← exec_journal_paths m ts plans fs]
    exact List.mem_map_of_mem _ he
  obtain ⟨p, hp, hpair⟩ := List.mem_map.mp hmem
  exact ⟨p, hp, congrArg Prod.fst hpair.symm, congrArg Prod.snd hpair.symm⟩

theorem rollback_cons (e : JournalRecord) (J : List JournalRecord) (fs : FS) :
    rollback_from_journal (e :: J) fs = rollbackStep (rollback_from_journal J fs) e := by
  simp [rollback_from_journal, List.foldl_append]

theorem rollback_foldl_skip :
    ∀ (l : List JournalRecord) (st : FS × List (String × String)),
      (∀ e ∈ l, st.1 e.target_path = none) → List.foldl rollbackStep st l = st := by
  intro l
  induction l with
  | nil => intro st _; rfl
  | cons e l ih =>
    intro st h
    have he : st.1 e.target_path = none := h e (by simp)
    have hstep : rollbackStep st e = st := by
      simp [rollbackStep, he]
    rw [List.foldl_cons, hstep]
    exact ih st (fun x hx => h x (by simp [hx]))

/-- A rollback run over a journal none of whose targets exist does nothing:
the filesystem is unchanged and no move is performed. -/
theorem rollback_skip_all (entries : List JournalRecord) (fs : FS)
    (h : ∀ e ∈ entries, fs e.target_path = none) :
    rollback_from_journal entries fs = (fs, []) := by
  unfold rollback_from_journal
  exact rollback_foldl_skip _ (fs, []) (fun e he => h e (List.mem_reverse.mp he))

/-- Round-trip for move mode: if the target paths are pairwise distinct, no
target path is a source path, and no target path holds a file beforehand,
then executing in move mode and rolling back restores the filesystem exactly. -/
theorem move_roundtrip_fs :
    ∀ (plans : List OrganizePlan) (ts : Nat) (fs : FS),
      (planTargets plans).Nodup →
      (∀ t ∈ planTargets plans, ∀ s ∈ planSources plans, t ≠ s) →
      (∀ t ∈ planTargets plans, fs t = none) →
      (rollback_from_journal (execute_plans plans "move" fs ts).2
        (execute_plans plans "move" fs ts).1).1 = fs := by
  intro plans
  induction plans with
  | nil => intro ts fs _ _ _; rfl
  | cons p ps ih =>
    intro ts fs hnd hdisj hfresh
    have hts : p.target_path ≠ p.source_path :=
      hdisj p.target_path (by simp [planTargets_cons]) p.source_path
        (by simp [planSources_cons])
    have hndt : p.target_path ∉ planTargets ps := by
      rw [planTargets_cons] at hnd
      exact (List.nodup_cons.mp hnd).1
    have hnd2 : (planTargets ps).Nodup := by
      rw [planTargets_cons] at hnd
      exact (List.nodup_cons.mp hnd).2
    have hdisj2 : ∀ t ∈ planTargets ps, ∀ s ∈ planSources ps, t ≠ s := by
      intro t ht s hs
      exact hdisj t (by simp [planTargets_cons, ht]) s (by simp [planSources_cons, hs])
    have hfresh_head : fs p.target_path = none :=
      hfresh p.target_path (by simp [planTargets_cons])
    rw [exec_cons]
    by_cases hsrc : (fs p.source_path).isSome
    · -- source exists: the file is moved, journalled as moved
      have hstep : executeStep "move" ts (fs, []) p
          = (fsMove fs p.source_path p.target_path, [mkRecord p ts "moved"]) := by
        simp [executeStep, hsrc]
      rw [hstep]
      set fs1 := fsMove fs p.source_path p.target_path with hfs1
      have hfresh2 : ∀ t ∈ planTargets ps, fs1 t = none := by
        intro t ht
        have h1 : t ≠ p.target_path := fun h => hndt (h ▸ ht)
        have h2 : t ≠ p.source_path :=
          hdisj t (by simp [planTargets_cons, ht]) p.source_path
            (by simp [planSources_cons])
        simp [hfs1, fsMove, h1, h2]
        exact hfresh t (by simp [planTargets_cons, ht])
      have hroll := ih ts fs1 hnd2 hdisj2 hfresh2
      simp only [List.singleton_append, rollback_cons]
      have hfs1t : fs1 p.target_path = fs p.source_path := by
        simp [hfs1, fsMove]
      -- state after rolling back the tail journal
      have hfst : (rollback_from_journal (execute_plans ps "move" fs1 ts).2
          (execute_plans ps "move" fs1 ts).1).1 = fs1 := hroll
      set st := rollback_from_journal (execute_plans ps "move" fs1 ts).2
          (execute_plans ps "move" fs1 ts).1 with hst
      have hsome : (st.1 p.target_path).isSome := by
        rw [hfst, hfs1t]
        exact hsrc
      have hstep2 : rollbackStep st (mkRecord p ts "moved")
          = (fsMove st.1 p.target_path p.source_path,
              st.2 ++ [(p.target_path, p.source_path)]) := by
        simp only [rollbackStep, mkRecord]
        rw [if_pos hsome]
      rw [hstep2]
      show fsMove st.1 p.target_path p.source_path = fs
      funext q
      simp only [fsMove]
      by_cases hq1 : q = p.source_path
      · rw [if_pos hq1, hfst, hfs1t, hq1]
      · rw [if_neg hq1]
        by_cases hq2 : q = p.target_path
        · rw [if_pos hq2, hq2, hfresh_head]
        · rw [if_neg hq2, hfst, hfs1]
          simp only [fsMove]
          rw [if_neg hq2, if_neg hq1]
    · -- source missing: journalled as missing, no mutation
      have hstep : executeStep "move" ts (fs, []) p = (fs, [mkRecord p ts "missing"]) := by
        simp [executeStep, hsrc]
      rw [hstep]
      have hroll := ih ts fs hnd2 hdisj2
        (fun t ht => hfresh t (by simp [planTargets_cons, ht]))
      simp only [List.singleton_append, rollback_cons]
      set st := rollback_from_journal (execute_plans ps "move" fs ts).2
          (execute_plans ps "move" fs ts).1 with hst
      have hfst : st.1 = fs := hroll
      have hnone : st.1 p.target_path = none := by
        rw [hfst]
        exact hfresh_head
      have hstep2 : rollbackStep st (mkRecord p ts "missing") = st := by
        simp only [rollbackStep, mkRecord]
        rw [if_neg]
        simp [hnone]
      rw [hstep2]
      exact hfst

/-- For any mode other than the exact string "move", execute_plans behaves
exactly like copy mode: there is no validation of the mode argument. -/
theorem exec_mode_ne_move_eq_copy (m : String) (hm : m ≠ "move") :
    ∀ (plans : List OrganizePlan) (fs : FS) (ts : Nat),
      execute_plans plans m fs ts = execute_plans plans "copy" fs ts := by
  have hstep : executeStep m = executeStep "copy" := by
    funext ts st plan
    have hcm : ("copy" : String) ≠ "move" := by decide
    simp [executeStep, hm, hcm]
  intro plans fs ts
  simp [execute_plans, hstep]

/-- In copy mode, when every source exists beforehand, every plan is executed
and journalled with status copied (copies never remove sources, so later
sources cannot disappear). -/
theorem exec_copy_journal :
    ∀ (plans : List OrganizePlan) (fs : FS) (ts : Nat),
      (∀ s ∈ planSources plans, (fs s).isSome) →
      (execute_plans plans "copy" fs ts).2 = plans.map (fun p => mkRecord p ts "copied") := by
  intro plans
  induction plans with
  | nil => intro fs ts _; rfl
  | cons p ps ih =>
    intro fs ts hsrc
    have hs : (fs p.source_path).isSome := hsrc p.source_path (by simp [planSources_cons])
    have hcm : ("copy" : String) ≠ "move" := by decide
    have hstep : executeStep "copy" ts (fs, []) p
        = (fsCopy fs p.source_path p.target_path, [mkRecord p ts "copied"]) := by
      simp [executeStep, hs, hcm]
    rw [exec_cons, hstep]
    have hsrc2 : ∀ s ∈ planSources ps,
        ((fsCopy fs p.source_path p.target_path) s).isSome := by
      intro s hsm
      by_cases hst : s = p.target_path
      · simp [fsCopy, hst, hs]
      · simp only [fsCopy, if_neg hst]
        exact hsrc s (by simp [planSources_cons, hsm])
    simp [ih _ ts hsrc2]

/-- Round-trip for copy mode: under the same freshness side conditions as the
move round-trip, plus existing sources, rolling back a copy-mode journal moves
every copy from its target back onto its original path (one move per plan, in
reverse journal order), restoring the initial filesystem. -/
theorem copy_roundtrip :
    ∀ (plans : List OrganizePlan) (ts : Nat) (fs : FS),
      (planTargets plans).Nodup →
      (∀ t ∈ planTargets plans, ∀ s ∈ planSources plans, t ≠ s) →
      (∀ t ∈ planTargets plans, fs t = none) →
      (∀ s ∈ planSources plans, (fs s).isSome) →
      rollback_from_journal (execute_plans plans "copy" fs ts).2
          (execute_plans plans "copy" fs ts).1
        = (fs, (plans.map (fun p => (p.target_path, p.source_path))).reverse) := by
  intro plans
  induction plans with
  | nil => intro ts fs _ _ _ _; rfl
  | cons p ps ih =>
    intro ts fs hnd hdisj hfresh hsrc
    have hts : p.target_path ≠ p.source_path :=
      hdisj p.target_path (by simp [planTargets_cons]) p.source_path
        (by simp [planSources_cons])
    have hndt : p.target_path ∉ planTargets ps := by
      rw [planTargets_cons] at hnd
      exact (List.nodup_cons.mp hnd).1
    have hnd2 : (planTargets ps).Nodup := by
      rw [planTargets_cons] at hnd
      exact (List.nodup_cons.mp hnd).2
    have hdisj2 : ∀ t ∈ planTargets ps, ∀ s ∈ planSources ps, t ≠ s := by
      intro t ht s hs
      exact hdisj t (by simp [planTargets_cons, ht]) s (by simp [planSources_cons, hs])
    have hfresh_head : fs p.target_path = none :=
      hfresh p.target_path (by simp [planTargets_cons])
    have hs : (fs p.source_path).isSome := hsrc p.source_path (by simp [planSources_cons])
    have hcm : ("copy" : String) ≠ "move" := by decide
    have hstep : executeStep "copy" ts (fs, []) p
        = (fsCopy fs p.source_path p.target_path, [mkRecord p ts "copied"]) := by
      simp [executeStep, hs, hcm]
    rw [exec_cons, hstep]
    set fs1 := fsCopy fs p.source_path p.target_path with hfs1
    have hfresh2 : ∀ t ∈ planTargets ps, fs1 t = none := by
      intro t ht
      have h1 : t ≠ p.target_path := fun h => hndt (h ▸ ht)
      simp only [hfs1, fsCopy, if_neg h1]
      exact hfresh t (by simp [planTargets_cons, ht])
    have hsrc2 : ∀ s ∈ planSources ps, (fs1 s).isSome := by
      intro s hsm
      by_cases hst : s = p.target_path
      · simp [hfs1, fsCopy, hst, hs]
      · simp only [hfs1, fsCopy, if_neg hst]
        exact hsrc s (by simp [planSources_cons, hsm])
    have hroll := ih ts fs1 hnd2 hdisj2 hfresh2 hsrc2
    simp only [List.singleton_append, rollback_cons]
    rw [hroll]
    have hfs1t : fs1 p.target_path = fs p.source_path := by
      simp [hfs1, fsCopy]
    have hsome : ((fs1 : FS) p.target_path).isSome := by
      rw [hfs1t]
      exact hs
    have hstep2 : rollbackStep (fs1, (ps.map (fun q => (q.target_path, q.source_path))).reverse)
          (mkRecord p ts "copied")
        = (fsMove fs1 p.target_path p.source_path,
            (ps.map (fun q => (q.target_path, q.source_path))).reverse
              ++ [(p.target_path, p.source_path)]) := by
      simp only [rollbackStep, mkRecord]
      rw [if_pos hsome]
    rw [hstep2]
    have hfseq : fsMove fs1 p.target_path p.source_path = fs := by
      funext q
      simp only [fsMove]
      by_cases hq1 : q = p.source_path
      · rw [if_pos hq1, hfs1t, hq1]
      · rw [if_neg hq1]
        by_cases hq2 : q = p.target_path
        · rw [if_pos hq2, hq2, hfresh_head]
        · rw [if_neg hq2]
          simp only [hfs1, fsCopy]
          rw [if_neg hq2]
    rw [hfseq]
    simp

/-- The rollback engine never reads the status field: rewriting every status
in the journal leaves the rollback result unchanged. -/
theorem rollback_status_blind (entries : List JournalRecord) (fs : FS) (s : String) :
    rollback_from_journal (entries.map (fun e => { e with status := s })) fs
      = rollback_from_journal entries fs := by
  unfold rollback_from_journal
  rw [← List.map_reverse, List.foldl_map]
  rfl

theorem string_left_cancel {c a b : String} (h : c ++ a = c ++ b) : a = b := by
  have hd : c.data ++ a.data = c.data ++ b.data := by
    have := congrArg String.data h
    simpa [String.data_append] using this
  exact String.ext (List.append_cancel_left hd)

theorem string_right_cancel {c a b : String} (h : a ++ c = b ++ c) : a = b := by
  have hd : a.data ++ c.data = b.data ++ c.data := by
    have := congrArg String.data h
    simpa [String.data_append] using this
  exact String.ext (List.append_cancel_right hd)

/-- Each retry counter yields a syntactically distinct candidate name. -/
theorem nameAt_injective (stem hash suff : String) :
    Function.Injective (nameAt stem hash suff) := by
  intro a b h
  by_cases ha : a = 0 <;> by_cases hb : b = 0
  · omega
  · exfalso
    rw [nameAt, nameAt, if_pos ha, if_neg hb] at h
    have hlen := congrArg String.length h
    simp only [String.length_append] at hlen
    have h1 : 0 < ("_" : String).length := by decide
    omega
  · exfalso
    rw [nameAt, nameAt, if_neg ha, if_pos hb] at h
    have hlen := congrArg String.length h
    simp only [String.length_append] at hlen
    have h1 : 0 < ("_" : String).length := by decide
    omega
  · rw [nameAt, nameAt, if_neg ha, if_neg hb] at h
    have h1 : (stem ++ "__" ++ hash ++ "_") ++ (decimalRepr a ++ suff)
        = (stem ++ "__" ++ hash ++ "_") ++ (decimalRepr b ++ suff) := by
      have e1 : ∀ x : Nat, stem ++ "__" ++ hash ++ "_" ++ decimalRepr x ++ suff
          = (stem ++ "__" ++ hash ++ "_") ++ (decimalRepr x ++ suff) := by
        intro x
        simp [String.append_assoc]
      rw [← e1, ← e1]
      exact h
    have h2 : decimalRepr a ++ suff = decimalRepr b ++ suff := string_left_cancel h1
    exact decimalRepr_injective (string_right_cancel h2)

theorem candidateAt_injective (base stem hash suff : String) :
    Function.Injective (candidateAt base stem hash suff) := by
  intro a b h
  have h1 : (base ++ "/") ++ nameAt stem hash suff a
      = (base ++ "/") ++ nameAt stem hash suff b := by
    simpa [candidateAt, String.append_assoc] using h
  exact nameAt_injective stem hash suff (string_left_cancel h1)

/-- Pigeonhole: among the first n+1 candidate names, where n bounds the number
of colliding paths, some candidate collides with nothing. -/
theorem exists_free_candidate (used disk : List String) (base stem hash suff : String) :
    ∃ k ≤ used.length + disk.length,
      candidateAt base stem hash suff k ∉ used ∧ candidateAt base stem hash suff k ∉ disk := by
  by_contra hcon
  push_neg at hcon
  set n := used.length + disk.length with hn
  have hsub : (List.range (n + 1)).map (candidateAt base stem hash suff) ⊆ used ++ disk := by
    intro x hx
    obtain ⟨k, hk, hxk⟩ := List.mem_map.mp hx
    have hkn : k ≤ n := by
      have := List.mem_range.mp hk
      omega
    rcases Classical.em (candidateAt base stem hash suff k ∈ used) with h | h
    · rw [← hxk]
      exact List.mem_append.mpr (Or.inl h)
    · have := hcon k hkn (by exact fun hmem => h hmem)
      rw [← hxk]
      exact List.mem_append.mpr (Or.inr this)
  have hnd : ((List.range (n + 1)).map (candidateAt base stem hash suff)).Nodup :=
    (List.nodup_range _).map (candidateAt_injective base stem hash suff)
  have hsp := hnd.subperm hsub
  have hlen := hsp.length_le
  rw [List.length_map, List.length_range, List.length_append] at hlen
  omega

/-- If some later candidate is collision-free, the loop returns within the
remaining fuel. -/
theorem resolveLoop_reaches (used disk : List String) (base stem hash suff : String)
    (k : Nat) (hk : candidateAt base stem hash suff k ∉ used ∧
      candidateAt base stem hash suff k ∉ disk) :
    ∀ d fuel attempt cand, d + 2 ≤ fuel → attempt + d = k →
      (resolveLoop used disk base stem hash suff fuel cand attempt).isSome := by
  intro d
  have hfree : ¬(base ++ "/" ++ nameAt stem hash suff k ∈ used
      ∨ base ++ "/" ++ nameAt stem hash suff k ∈ disk) := by
    intro hmem
    rcases hmem with h | h
    · exact hk.1 h
    · exact hk.2 h
  induction d with
  | zero =>
    intro fuel attempt cand hfuel hatt
    have hattk : attempt = k := by omega
    subst hattk
    obtain ⟨f, rfl⟩ : ∃ f, fuel = f + 2 := ⟨fuel - 2, by omega⟩
    rw [resolveLoop]
    by_cases hc : cand ∈ used ∨ cand ∈ disk
    · rw [if_pos hc, resolveLoop, if_neg hfree]
      rfl
    · rw [if_neg hc]
      rfl
  | succ d ih =>
    intro fuel attempt cand hfuel hatt
    obtain ⟨f, rfl⟩ : ∃ f, fuel = f + 1 := ⟨fuel - 1, by omega⟩
    rw [resolveLoop]
    by_cases hc : cand ∈ used ∨ cand ∈ disk
    · rw [if_pos hc]
      exact ih f (attempt + 1) (base ++ "/" ++ nameAt stem hash suff attempt)
        (by omega) (by omega)
    · rw [if_neg hc]
      rfl

/-- The collision loop always succeeds within fuel equal to the number of
colliding paths plus two. -/
theorem resolveLoop_isSome (used disk : List String) (base stem hash suff start : String) :
    (resolveLoop used disk base stem hash suff
      (used.length + disk.length + 2) start 0).isSome := by
  obtain ⟨k, hk, hku, hkd⟩ := exists_free_candidate used disk base stem hash suff
  by_cases hkz : k = 0
  · subst hkz
    exact resolveLoop_reaches used disk base stem hash suff 0 ⟨hku, hkd⟩ 0
      (used.length + disk.length + 2) 0 start (by omega) (by omega)
  · exact resolveLoop_reaches used disk base stem hash suff k ⟨hku, hkd⟩ k
      (used.length + disk.length + 2) 0 start (by omega) (by omega)

/-- Whatever the loop returns was free: not an already-used target and not an
existing path. -/
theorem resolveLoop_result_free (used disk : List String) (base stem hash suff : String) :
    ∀ fuel cand attempt r,
      resolveLoop used disk base stem hash suff fuel cand attempt = some r →
      r ∉ used ∧ r ∉ disk := by
  intro fuel
  induction fuel with
  | zero =>
    intro cand attempt r h
    exact absurd h (by rw [resolveLoop]; simp)
  | succ fuel ih =>
    intro cand attempt r h
    rw [resolveLoop] at h
    by_cases hc : cand ∈ used ∨ cand ∈ disk
    · rw [if_pos hc] at h
      exact ih _ _ _ h
    · rw [if_neg hc] at h
      have : cand = r := by
        injection h
      subst this
      push_neg at hc
      exact hc

/-- resolve_target_path returns a target outside the used set and pushes it
onto the used set. -/
theorem resolve_target_path_spec (project_root bucket source_name digest : String)
    (used disk : List String) :
    (resolve_target_path project_root bucket source_name digest used disk).1 ∉ used ∧
    (resolve_target_path project_root bucket source_name digest used disk).2.2
      = (resolve_target_path project_root bucket source_name digest used disk).1 :: used := by
  have hsome := resolveLoop_isSome used disk
    (project_root ++ "/" ++ alookupD bucketDirectoryMap bucket "archive")
    (pathStem source_name) (String.take digest 7) (pathSuffix source_name)
    ((project_root ++ "/" ++ alookupD bucketDirectoryMap bucket "archive")
      ++ "/" ++ source_name)
  obtain ⟨r, hr⟩ := Option.isSome_iff_exists.mp hsome
  have hfree := resolveLoop_result_free used disk
    (project_root ++ "/" ++ alookupD bucketDirectoryMap bucket "archive")
    (pathStem source_name) (String.take digest 7) (pathSuffix source_name)
    _ _ _ _ hr
  constructor
  · show (resolveLoop used disk _ _ _ _ _ _ _).getD _ ∉ used
    rw [hr]
    exact hfree.1
  · show _ = (resolveLoop used disk _ _ _ _ _ _ _).getD _ :: used
    rfl

/-- Invariant for the per-project document loop: every produced target avoids
the incoming used set, and the produced targets are pairwise distinct. -/
theorem buildDocsLoop_nodup (project_root project_id project_label : String)
    (role_map score_map : List (String × String))
    (scan_index : List (String × ScanMeta)) (disk : List String) :
    ∀ (ids used : List String),
      ((buildDocsLoop project_root project_id project_label role_map score_map
          scan_index disk ids used).map (fun p => p.target_path)).Nodup ∧
      ∀ pl ∈ buildDocsLoop project_root project_id project_label role_map score_map
          scan_index disk ids used, pl.target_path ∉ used := by
  intro ids
  induction ids with
  | nil =>
    intro used
    constructor
    · simp [buildDocsLoop]
    · intro pl hpl
      simp [buildDocsLoop] at hpl
  | cons doc_id rest ih =>
    intro used
    rw [buildDocsLoop]
    cases hmd : alookup scan_index doc_id with
    | none => exact ih used
    | some md =>
      set bucket := alookupD role_map doc_id (alookupD score_map doc_id "archive")
        with hbucket
      have hres := resolve_target_path_spec project_root bucket (pathName md.path)
        md.blake3 used disk
      set r := resolve_target_path project_root bucket (pathName md.path) md.blake3
        used disk with hrdef
      have hrest := ih r.2.2
      constructor
      · rw [List.map_cons, List.nodup_cons]
        constructor
        · intro hmem
          obtain ⟨pl, hpl, hplt⟩ := List.mem_map.mp hmem
          have := hrest.2 pl hpl
          rw [hres.2] at this
          exact this (by rw [hplt]; exact List.mem_cons_self _ _)
        · exact hrest.1
      · intro pl hpl
        rcases List.mem_cons.mp hpl with hh | hh
        · rw [hh]
          exact hres.1
        · intro hmem
          have := hrest.2 pl hh
          rw [hres.2] at this
          exact this (List.mem_cons_of_mem _ hmem)

theorem foldl_max_init_le : ∀ (l : List Int) (a : Int), a ≤ l.foldl max a := by
  intro l
  induction l with
  | nil => intro a; simp
  | cons x l ih =>
    intro a
    calc a ≤ max a x := le_max_left a x
    _ ≤ l.foldl max (max a x) := ih (max a x)

theorem foldl_max_mem_le : ∀ (l : List Int) (a x : Int), x ∈ l → x ≤ l.foldl max a := by
  intro l
  induction l with
  | nil => intro a x hx; simp at hx
  | cons y l ih =>
    intro a x hx
    rcases List.mem_cons.mp hx with h | h
    · subst h
      calc x ≤ max a x := le_max_right a x
      _ ≤ l.foldl max (max a x) := foldl_max_init_le l _
    · exact ih (max a y) x h

theorem foldl_max_all_le : ∀ (l : List Int) (a : Int), (∀ x ∈ l, x ≤ a) →
    l.foldl max a = a := by
  intro l
  induction l with
  | nil => intro a _; rfl
  | cons y l ih =>
    intro a h
    have hy : y ≤ a := h y (by simp)
    have : max a y = a := max_eq_left hy
    rw [List.foldl_cons, this]
    exact ih a (fun x hx => h x (by simp [hx]))

theorem foldl_max_attained : ∀ (l : List Int) (a : Int),
    l.foldl max a = a ∨ l.foldl max a ∈ l := by
  intro l
  induction l with
  | nil => intro a; left; rfl
  | cons y l ih =>
    intro a
    rcases ih (max a y) with h | h
    · rcases le_or_lt y a with hy | hy
      · left
        rw [List.foldl_cons, h, max_eq_left hy]
      · right
        rw [List.foldl_cons, h, max_eq_right (le_of_lt hy)]
        simp
    · right
      rw [List.foldl_cons]
      exact List.mem_cons_of_mem _ h

/-- Characterization of the best-bucket fold: the final score is the running
maximum; if nothing beats the accumulator the accumulator survives; and if
something strictly beats it, the winner is the first bucket attaining the
maximum. -/
theorem scoreFold_spec (document : FileDocument) (weights : List (String × Int)) :
    ∀ (l : List (String × BucketRule)) (acc : String × Int × List String),
      (l.foldl (scoreStep document weights) acc).2.1
          = (l.map (fun pr => (bucketScore document weights pr.2).1)).foldl max acc.2.1
      ∧ ((∀ pr ∈ l, (bucketScore document weights pr.2).1 ≤ acc.2.1) →
          l.foldl (scoreStep document weights) acc = acc)
      ∧ (acc.2.1 < (l.map (fun pr => (bucketScore document weights pr.2).1)).foldl
            max acc.2.1 →
          ∃ pr0, l.find? (fun pr => decide
              ((l.map (fun q => (bucketScore document weights q.2).1)).foldl max acc.2.1
                ≤ (bucketScore document weights pr.2).1)) = some pr0
            ∧ l.foldl (scoreStep document weights) acc
                = (pr0.1, (bucketScore document weights pr0.2).1,
                    if (bucketScore document weights pr0.2).2 = [] then ["matched"]
                    else (bucketScore document weights pr0.2).2)
            ∧ (bucketScore document weights pr0.2).1
                = (l.map (fun q => (bucketScore document weights q.2).1)).foldl
                    max acc.2.1) := by
  intro l
  induction l with
  | nil =>
    intro acc
    refine ⟨rfl, fun _ => rfl, ?_⟩
    intro h
    simp at h
  | cons pr l ih =>
    intro acc
    set s1 := (bucketScore document weights pr.2).1 with hs1
    by_cases hlt : acc.2.1 < s1
    · -- the head bucket strictly beats the accumulator and replaces it
      have hstep : scoreStep document weights acc pr
          = (pr.1, s1, if (bucketScore document weights pr.2).2 = [] then ["matched"]
              else (bucketScore document weights pr.2).2) := by
        simp only [scoreStep]
        rw [if_pos hlt]
      have hmax : max acc.2.1 s1 = s1 := max_eq_right (le_of_lt hlt)
      have hfold : (pr :: l).foldl (scoreStep document weights) acc
          = l.foldl (scoreStep document weights)
              (pr.1, s1, if (bucketScore document weights pr.2).2 = [] then ["matched"]
                else (bucketScore document weights pr.2).2) := by
        rw [List.foldl_cons, hstep]
      have hM : ((pr :: l).map (fun q => (bucketScore document weights q.2).1)).foldl
          max acc.2.1 = (l.map (fun q => (bucketScore document weights q.2).1)).foldl
            max s1 := by
        rw [List.map_cons, List.foldl_cons, hmax]
      set acc1 : String × Int × List String :=
        (pr.1, s1, if (bucketScore document weights pr.2).2 = [] then ["matched"]
          else (bucketScore document weights pr.2).2) with hacc1
      have ih1 := ih acc1
      refine ⟨?_, ?_, ?_⟩
      · rw [hfold, hM]
        exact ih1.1
      · intro hall
        exfalso
        have := hall pr (by simp)
        rw [← hs1] at this
        omega
      · intro _
        by_cases hall : ∀ x ∈ l.map (fun q => (bucketScore document weights q.2).1), x ≤ s1
        · -- head attains the maximum: it is the first winner
          have hMs : (l.map (fun q => (bucketScore document weights q.2).1)).foldl
              max s1 = s1 := foldl_max_all_le _ s1 hall
          refine ⟨pr, ?_, ?_, ?_⟩
          · rw [List.find?_cons_of_pos]
            rw [hM, hMs]
            simp
          · rw [hfold]
            have : l.foldl (scoreStep document weights) acc1 = acc1 := by
              apply ih1.2.1
              intro q hq
              have : (bucketScore document weights q.2).1
                  ∈ l.map (fun q => (bucketScore document weights q.2).1) :=
                List.mem_map_of_mem _ hq
              exact hall _ this
            rw [this, hacc1]
          · rw [hM, hMs, hs1]
        · -- some later bucket is strictly larger: recurse
          push_neg at hall
          obtain ⟨x, hxmem, hxgt⟩ := hall
          have hMgt : s1 < (l.map (fun q => (bucketScore document weights q.2).1)).foldl
              max s1 := lt_of_lt_of_le hxgt (foldl_max_mem_le _ s1 x hxmem)
          have ih3 := ih1.2.2 (by rw [hacc1]; exact hMgt)
          obtain ⟨pr0, hfind, hres, hscore⟩ := ih3
          refine ⟨pr0, ?_, ?_, ?_⟩
          · rw [List.find?_cons_of_neg]
            · rw [hM]
              convert hfind using 3
            · rw [hM]
              simp only [decide_eq_true_eq]
              rw [← hs1]
              omega
          · rw [hfold]
            exact hres
          · rw [hM]
            exact hscore
    · -- the head bucket does not beat the accumulator
      have hstep : scoreStep document weights acc pr = acc := by
        simp only [scoreStep]
        rw [if_neg hlt]
      have hmax : max acc.2.1 s1 = acc.2.1 := max_eq_left (by omega)
      have hfold : (pr :: l).foldl (scoreStep document weights) acc
          = l.foldl (scoreStep document weights) acc := by
        rw [List.foldl_cons, hstep]
      have hM : ((pr :: l).map (fun q => (bucketScore document weights q.2).1)).foldl
          max acc.2.1 = (l.map (fun q => (bucketScore document weights q.2).1)).foldl
            max acc.2.1 := by
        rw [List.map_cons, List.foldl_cons, hmax]
      have ih1 := ih acc
      refine ⟨?_, ?_, ?_⟩
      · rw [hfold, hM]
        exact ih1.1
      · intro hall
        rw [hfold]
        exact ih1.2.1 (fun q hq => hall q (by simp [hq]))
      · intro hgt
        rw [hM] at hgt
        have ih3 := ih1.2.2 hgt
        obtain ⟨pr0, hfind, hres, hscore⟩ := ih3
        refine ⟨pr0, ?_, ?_, ?_⟩
        · rw [List.find?_cons_of_neg]
          · rw [hM]
            convert hfind using 3
          · rw [hM]
            simp only [decide_eq_true_eq]
            rw [← hs1]
            omega
        · rw [hfold]
          exact hres
        · rw [hM]
          exact hscore

theorem mkProjects_labels (documents : List ClusterInput) (hints : List String)
    (score_map : List (String × String)) :
    ∀ (labels : List String) (index : Nat),
      (mkProjects documents hints score_map index labels).map (fun p => p.project_label)
        = labels := by
  intro labels
  induction labels with
  | nil => intro index; rfl
  | cons label rest ih =>
    intro index
    rw [mkProjects]
    simp only [List.map_cons]
    rw [ih (index + 1)]

theorem mkProjects_ids (documents : List ClusterInput) (hints : List String)
    (score_map : List (String × String)) :
    ∀ (labels : List String) (index : Nat),
      (mkProjects documents hints score_map index labels).map (fun p => p.project_id)
        = (List.range labels.length).map (fun j => "project_" ++ pad3 (index + j + 1)) := by
  intro labels
  induction labels with
  | nil => intro index; rfl
  | cons label rest ih =>
    intro index
    rw [mkProjects]
    simp only [List.map_cons, List.length_cons, List.range_succ_eq_map, List.map_map]
    congr 1
    rw [ih (index + 1)]
    apply List.map_congr_left
    intro j _
    simp only [Function.comp_apply]
    have h : index + 1 + j + 1 = index + (j + 1) + 1 := by omega
    rw [h]

theorem sortedLabels_sorted (documents : List ClusterInput) (hints : List String) :
    List.Sorted (fun a b : String => a ≤ b) (sortedLabels documents hints) :=
  List.sorted_mergeSort' _

theorem sortedLabels_nodup (documents : List ClusterInput) (hints : List String) :
    (sortedLabels documents hints).Nodup :=
  (List.mergeSort_perm _ _).symm.nodup (List.nodup_dedup _)

theorem sortedLabels_strict (documents : List ClusterInput) (hints : List String) :
    (sortedLabels documents hints).Pairwise (fun a b : String => a < b) := by
  have hs : (sortedLabels documents hints).Pairwise (fun a b : String => a ≤ b) :=
    sortedLabels_sorted documents hints
  have hn : (sortedLabels documents hints).Pairwise (fun a b : String => a ≠ b) :=
    sortedLabels_nodup documents hints
  exact (hs.and hn).imp (fun h => lt_of_le_of_ne h.1 h.2)

/-- Behavior of the journal reader: without any malformed line, all records
are returned in order with blanks skipped; with a malformed line anywhere, the
read raises instead of skipping it. -/
theorem read_jsonl_spec (lines : List JsonlLine) :
    (JsonlLine.malformed ∉ lines → read_jsonl lines = Except.ok (parsedRecords lines))
    ∧ (JsonlLine.malformed ∈ lines →
        read_jsonl lines = Except.error "json.decoder.JSONDecodeError") := by
  induction lines with
  | nil =>
    constructor
    · intro _; rfl
    · intro h; simp at h
  | cons l rest ih =>
    cases l with
    | blank =>
      constructor
      · intro h
        have : JsonlLine.malformed ∉ rest := fun hm => h (by simp [hm])
        rw [read_jsonl, parsedRecords]
        exact ih.1 this
      · intro h
        have : JsonlLine.malformed ∈ rest := by
          rcases List.mem_cons.mp h with h1 | h1
          · exact absurd h1.symm (by simp)
          · exact h1
        rw [read_jsonl]
        exact ih.2 this
    | malformed =>
      constructor
      · intro h
        exact absurd (List.mem_cons_self _ _) h
      · intro _
        rfl
    | record e =>
      constructor
      · intro h
        have : JsonlLine.malformed ∉ rest := fun hm => h (by simp [hm])
        rw [read_jsonl, parsedRecords]
        rw [ih.1 this]
      · intro h
        have : JsonlLine.malformed ∈ rest := by
          rcases List.mem_cons.mp h with h1 | h1
          · exact absurd h1.symm (by simp)
          · exact h1
        rw [read_jsonl]
        rw [ih.2 this]

/-- C3 counterexample: a journal whose final line is unparseable makes
read_jsonl fail with JSONDecodeError; the well-formed leading record is not
returned. -/
theorem claim_C3_counterexample :
    read_jsonl [JsonlLine.record sampleRecord, JsonlLine.malformed]
        = Except.error "json.decoder.JSONDecodeError"
    ∧ read_jsonl [JsonlLine.record sampleRecord, JsonlLine.malformed]
        ≠ Except.ok [sampleRecord] := by
  constructor
  · rfl
  · intro h
    simp [read_jsonl] at h

/-- C3 amended: read_jsonl skips blank lines and returns the well-formed
records only when no line is malformed; a malformed line anywhere makes the
whole read raise JSONDecodeError instead of being skipped. -/
theorem claim_C3_read_jsonl (lines : List JsonlLine) :
    (JsonlLine.malformed ∉ lines → read_jsonl lines = Except.ok (parsedRecords lines))
    ∧ (JsonlLine.malformed ∈ lines →
        read_jsonl lines = Except.error "json.decoder.JSONDecodeError") :=
  read_jsonl_spec lines

/-- Witness for C3: both branches of the amended claim at concrete journals. -/
theorem claim_C3_read_jsonl_witness :
    read_jsonl [JsonlLine.blank, JsonlLine.record sampleRecord]
        = Except.ok [sampleRecord]
    ∧ read_jsonl [JsonlLine.malformed, JsonlLine.record sampleRecord]
        = Except.error "json.decoder.JSONDecodeError" := by
  constructor
  · have h := (claim_C3_read_jsonl [JsonlLine.blank, JsonlLine.record sampleRecord]).1
      (by decide)
    rw [h]
    rfl
  · exact (claim_C3_read_jsonl
      [JsonlLine.malformed, JsonlLine.record sampleRecord]).2 (by decide)

/-- C5: generate_doc_id is a pure function of the normalized path and the
digest; with the underlying name-based hash injective, equal identifiers at a
fixed path force equal digests and equal identifiers at a fixed digest force
equal paths, so changing either component changes the identifier. -/
theorem claim_C5_doc_id (uuid5 : String → String) (hinj : Function.Injective uuid5) :
    (∀ path d1 d2, generate_doc_id uuid5 path d1 = generate_doc_id uuid5 path d2
        ↔ d1 = d2)
    ∧ (∀ p1 p2 digest, generate_doc_id uuid5 p1 digest = generate_doc_id uuid5 p2 digest
        ↔ p1 = p2) := by
  constructor
  · intro path d1 d2
    constructor
    · intro h
      have h1 := hinj h
      exact string_left_cancel h1
    · intro h
      rw [h]
  · intro p1 p2 digest
    constructor
    · intro h
      have h1 := hinj h
      have h2 : p1 ++ "::" = p2 ++ "::" := string_right_cancel h1
      exact string_right_cancel h2
    · intro h
      rw [h]

/-- Witness for C5 with the identity as the injective hash: same pair, same
identifier; different digest or different path, different identifier. -/
theorem claim_C5_doc_id_witness :
    (generate_doc_id id "src/app.py" "aa11" = generate_doc_id id "src/app.py" "aa11"
        ↔ ("aa11" : String) = "aa11")
    ∧ (generate_doc_id id "src/app.py" "aa11" = generate_doc_id id "docs/app.py" "aa11"
        ↔ ("src/app.py" : String) = "docs/app.py") :=
  ⟨(claim_C5_doc_id id Function.injective_id).1 "src/app.py" "aa11" "aa11",
   (claim_C5_doc_id id Function.injective_id).2 "src/app.py" "docs/app.py" "aa11"⟩

/-- C4 counterexample: the journal record written by execute_plans for a
concrete executed plan carries exactly the nine source fields; content_digest
is not among them, and the field list differs from the data-model field list
of the specification. -/
theorem claim_C4_counterexample :
    ((execute_plans
        [{ doc_id := "doc-1", project_id := "project_001", project_label := "proj",
           bucket := "src", source_path := "/w/app.py",
           target_path := "/t/proj/src/core/app.py", hash_suffix := "abcdef0" }]
        "move" (fun p => if p = "/w/app.py" then some 1 else none) 0).2.map
          (fun e => (recordToDict e).map Prod.fst))
      = [journalRecordKeys]
    ∧ "content_digest" ∉ journalRecordKeys
    ∧ journalRecordKeys ≠ specJournalEntryFields := by
  refine ⟨?_, by decide, by decide⟩
  rfl

/-- C4 amended: every record written by execute_plans serializes exactly the
fields original_path, target_path, doc_id, project_id, project_label, bucket,
hash_suffix, timestamp, status, and in particular carries no content_digest
field. -/
theorem claim_C4_journal_fields (plans : List OrganizePlan) (mode : String)
    (fs : FS) (ts : Nat) :
    ∀ e ∈ (execute_plans plans mode fs ts).2,
      (recordToDict e).map Prod.fst = journalRecordKeys
      ∧ "content_digest" ∉ (recordToDict e).map Prod.fst := by
  intro e _
  refine ⟨rfl, ?_⟩
  have hk : (recordToDict e).map Prod.fst = journalRecordKeys := rfl
  rw [hk]
  decide

/-- Witness for C4 at the concrete record journalled for a concrete plan. -/
theorem claim_C4_journal_fields_witness :
    (recordToDict (mkRecord wplanA 0 "moved")).map Prod.fst = journalRecordKeys
    ∧ "content_digest" ∉ (recordToDict (mkRecord wplanA 0 "moved")).map Prod.fst :=
  claim_C4_journal_fields [wplanA] "move" wfs 0 (mkRecord wplanA 0 "moved") (by decide)

/-- C1 counterexample: two plans with existing sources, each source distinct
from its target, but sharing one target path.  After executing in move mode
and rolling back, the file that was at /w/a.py is gone: the second move
overwrote the first file at the shared target, and rollback can only return
the surviving file to the later source. -/
theorem claim_C1_counterexample :
    (∀ s ∈ planSources [cplanA, cplanB], ((wfs : FS) s).isSome)
    ∧ (∀ p ∈ [cplanA, cplanB], p.source_path ≠ p.target_path)
    ∧ (rollback_from_journal (execute_plans [cplanA, cplanB] "move" wfs 0).2
        (execute_plans [cplanA, cplanB] "move" wfs 0).1).1 "/w/a.py" = none
    ∧ (wfs : FS) "/w/a.py" = some 10 := by
  refine ⟨by decide, by decide, by decide, by decide⟩

/-- C1 (amended): executing plans in move mode and rolling back restores every
file to its original path — indeed the whole filesystem state — and a second
rollback performs no move, provided the sources exist and differ from their
targets as the claim assumes, and additionally the target paths are pairwise
distinct, coincide with no source path, and do not exist beforehand. -/
theorem claim_C1_roundtrip (plans : List OrganizePlan) (fs : FS) (ts : Nat)
    (_hsrc : ∀ s ∈ planSources plans, (fs s).isSome)
    (_hdistinct : ∀ p ∈ plans, p.source_path ≠ p.target_path)
    (hnd : (planTargets plans).Nodup)
    (hdisj : ∀ t ∈ planTargets plans, ∀ s ∈ planSources plans, t ≠ s)
    (hfresh : ∀ t ∈ planTargets plans, fs t = none) :
    (rollback_from_journal (execute_plans plans "move" fs ts).2
        (execute_plans plans "move" fs ts).1).1 = fs
    ∧ (∀ s ∈ planSources plans,
        (rollback_from_journal (execute_plans plans "move" fs ts).2
          (execute_plans plans "move" fs ts).1).1 s = fs s)
    ∧ rollback_from_journal (execute_plans plans "move" fs ts).2
        (rollback_from_journal (execute_plans plans "move" fs ts).2
          (execute_plans plans "move" fs ts).1).1
      = ((rollback_from_journal (execute_plans plans "move" fs ts).2
          (execute_plans plans "move" fs ts).1).1, []) := by
  have h1 := move_roundtrip_fs plans ts fs hnd hdisj hfresh
  refine ⟨h1, ?_, ?_⟩
  · intro s _
    rw [h1]
  · rw [h1]
    apply rollback_skip_all
    intro e he
    obtain ⟨p, hp, _, hpt⟩ := exec_entry_mem "move" ts plans fs e he
    rw [hpt]
    exact hfresh p.target_path (List.mem_map_of_mem _ hp)

/-- Witness for C1 at two concrete plans with fresh distinct targets. -/
theorem claim_C1_roundtrip_witness :
    (rollback_from_journal (execute_plans [wplanA, wplanB] "move" wfs 0).2
        (execute_plans [wplanA, wplanB] "move" wfs 0).1).1 = wfs
    ∧ (∀ s ∈ planSources [wplanA, wplanB],
        (rollback_from_journal (execute_plans [wplanA, wplanB] "move" wfs 0).2
          (execute_plans [wplanA, wplanB] "move" wfs 0).1).1 s = wfs s)
    ∧ rollback_from_journal (execute_plans [wplanA, wplanB] "move" wfs 0).2
        (rollback_from_journal (execute_plans [wplanA, wplanB] "move" wfs 0).2
          (execute_plans [wplanA, wplanB] "move" wfs 0).1).1
      = ((rollback_from_journal (execute_plans [wplanA, wplanB] "move" wfs 0).2
          (execute_plans [wplanA, wplanB] "move" wfs 0).1).1, []) :=
  claim_C1_roundtrip [wplanA, wplanB] wfs 0 (by decide) (by decide) (by decide)
    (by decide) (by decide)

/-- C2: build_plans is the concatenation of the per-project plan lists, and
within any single project the resolved target paths are pairwise distinct. -/
theorem claim_C2_targets_distinct (cluster : ClusterResult) (schema : SchemaConfig)
    (score_map : List (String × String)) (scan_index : List (String × ScanMeta))
    (disk : List String) :
    build_plans cluster schema score_map scan_index disk
        = (cluster.projects.map
            (fun project => buildPlansProject project schema score_map scan_index disk)).flatten
    ∧ ∀ project ∈ cluster.projects,
        ((buildPlansProject project schema score_map scan_index disk).map
          (fun p => p.target_path)).Nodup := by
  refine ⟨rfl, ?_⟩
  intro project _
  exact (buildDocsLoop_nodup (schema.target_root ++ "/" ++ project.project_label)
    project.project_id project.project_label project.role_bucket_map score_map
    scan_index disk project.doc_ids []).1

/-- Witness for C2: two member documents with the same source filename still
receive pairwise distinct targets. -/
theorem claim_C2_targets_distinct_witness :
    ((buildPlansProject wProject wSchema [] wScanIndex []).map
      (fun p => p.target_path)).Nodup :=
  (claim_C2_targets_distinct wCluster wSchema [] wScanIndex []).2 wProject (by decide)

/-- C6: the collision-resolution loop of resolve_target_path terminates — with
fuel bounded by the number of colliding paths plus two it returns a result —
and the retry counter injects into syntactically distinct candidate names. -/
theorem claim_C6_resolve_terminates (project_root bucket source_name digest : String)
    (used disk : List String) :
    (∃ r, resolveLoop used disk
        (project_root ++ "/" ++ alookupD bucketDirectoryMap bucket "archive")
        (pathStem source_name) (digest.take 7) (pathSuffix source_name)
        (used.length + disk.length + 2)
        ((project_root ++ "/" ++ alookupD bucketDirectoryMap bucket "archive")
          ++ "/" ++ source_name) 0 = some r)
    ∧ Function.Injective
        (nameAt (pathStem source_name) (digest.take 7) (pathSuffix source_name)) :=
  ⟨Option.isSome_iff_exists.mp (resolveLoop_isSome used disk
      (project_root ++ "/" ++ alookupD bucketDirectoryMap bucket "archive")
      (pathStem source_name) (digest.take 7) (pathSuffix source_name)
      ((project_root ++ "/" ++ alookupD bucketDirectoryMap bucket "archive")
        ++ "/" ++ source_name)),
   nameAt_injective (pathStem source_name) (digest.take 7) (pathSuffix source_name)⟩

/-- C9: the rollback engine never inspects the status field — rewriting every
status, for instance to copied, leaves its behavior unchanged — and after a
copy-mode execution rollback moves every copy from its target back onto its
original path (one move per plan), restoring the pre-execution state rather
than leaving the journal targets in place. -/
theorem claim_C9_rollback_status_blind :
    (∀ (entries : List JournalRecord) (fs : FS) (s : String),
        rollback_from_journal (entries.map (fun e => { e with status := s })) fs
          = rollback_from_journal entries fs)
    ∧ (∀ (plans : List OrganizePlan) (ts : Nat) (fs : FS),
        (planTargets plans).Nodup →
        (∀ t ∈ planTargets plans, ∀ s ∈ planSources plans, t ≠ s) →
        (∀ t ∈ planTargets plans, fs t = none) →
        (∀ s ∈ planSources plans, (fs s).isSome) →
        rollback_from_journal (execute_plans plans "copy" fs ts).2
            (execute_plans plans "copy" fs ts).1
          = (fs, (plans.map (fun p => (p.target_path, p.source_path))).reverse)) :=
  ⟨fun entries fs s => rollback_status_blind entries fs s,
   fun plans ts fs hnd hdisj hfresh hsrc => copy_roundtrip plans ts fs hnd hdisj hfresh hsrc⟩

/-- Witness for C9: a status rewrite leaves rollback unchanged, and rolling
back a concrete copy-mode journal moves the copy back onto its original. -/
theorem claim_C9_rollback_status_blind_witness :
    (rollback_from_journal ([sampleRecord].map (fun e => { e with status := "copied" })) wfs
        = rollback_from_journal [sampleRecord] wfs)
    ∧ rollback_from_journal (execute_plans [wplanA] "copy" wfs 0).2
          (execute_plans [wplanA] "copy" wfs 0).1
        = (wfs, ([wplanA].map (fun p => (p.target_path, p.source_path))).reverse) :=
  ⟨claim_C9_rollback_status_blind.1 [sampleRecord] wfs "copied",
   claim_C9_rollback_status_blind.2 [wplanA] 0 wfs (by decide) (by decide) (by decide)
    (by decide)⟩

/-- C10: execute_plans performs no validation of the mode string: any mode
other than exactly the string move behaves identically to copy mode, and with
all sources present every plan is journalled with status copied. -/
theorem claim_C10_mode_not_validated (mode : String) (hm : mode ≠ "move") :
    (∀ (plans : List OrganizePlan) (fs : FS) (ts : Nat),
        execute_plans plans mode fs ts = execute_plans plans "copy" fs ts)
    ∧ (∀ (plans : List OrganizePlan) (fs : FS) (ts : Nat),
        (∀ s ∈ planSources plans, (fs s).isSome) →
        (execute_plans plans mode fs ts).2
          = plans.map (fun p => mkRecord p ts "copied")) := by
  refine ⟨exec_mode_ne_move_eq_copy mode hm, ?_⟩
  intro plans fs ts hsrc
  rw [exec_mode_ne_move_eq_copy mode hm]
  exact exec_copy_journal plans fs ts hsrc

/-- Witness for C10 at the misspelled mode Move. -/
theorem claim_C10_mode_not_validated_witness :
    execute_plans [wplanA] "Move" wfs 0 = execute_plans [wplanA] "copy" wfs 0
    ∧ (execute_plans [wplanA] "Move" wfs 0).2
        = [wplanA].map (fun p => mkRecord p 0 "copied") :=
  ⟨(claim_C10_mode_not_validated "Move" (by decide)).1 [wplanA] wfs 0,
   (claim_C10_mode_not_validated "Move" (by decide)).2 [wplanA] wfs 0 (by decide)⟩

/-- C7: score_document keeps the document identity, its score is the running
maximum of the per-bucket scores (never below the zero accumulator); if no
bucket scores above zero the result is the archive fallback with reason list
fallback; and if some bucket scores above zero, the winner is the first
bucket in configuration order attaining the maximum, with its reasons. -/
theorem claim_C7_score_document (document : FileDocument) (rule_config : RuleConfig) :
    (score_document document rule_config).doc_id = document.doc_id
    ∧ (score_document document rule_config).score
        = (rule_config.buckets.map
            (fun pr => (bucketScore document rule_config.weights pr.2).1)).foldl max 0
    ∧ ((∀ pr ∈ rule_config.buckets,
          (bucketScore document rule_config.weights pr.2).1 ≤ 0) →
        score_document document rule_config
          = { doc_id := document.doc_id, best_bucket := "archive", score := 0,
              reasons := ["fallback"] })
    ∧ (0 < (rule_config.buckets.map
          (fun pr => (bucketScore document rule_config.weights pr.2).1)).foldl max 0 →
        ∃ winner, rule_config.buckets.find?
            (fun pr => decide ((rule_config.buckets.map
              (fun q => (bucketScore document rule_config.weights q.2).1)).foldl max 0
                ≤ (bucketScore document rule_config.weights pr.2).1)) = some winner
          ∧ (score_document document rule_config).best_bucket = winner.1
          ∧ (score_document document rule_config).score
              = (bucketScore document rule_config.weights winner.2).1
          ∧ (score_document document rule_config).reasons
              = (if (bucketScore document rule_config.weights winner.2).2 = []
                  then ["matched"]
                  else (bucketScore document rule_config.weights winner.2).2)
          ∧ ∀ pr ∈ rule_config.buckets,
              (bucketScore document rule_config.weights pr.2).1
                ≤ (bucketScore document rule_config.weights winner.2).1) := by
  have hspec := scoreFold_spec document rule_config.weights rule_config.buckets
    ("archive", 0, ["fallback"])
  obtain ⟨h1, h2, h3⟩ := hspec
  refine ⟨rfl, h1, ?_, ?_⟩
  · intro hall
    have hacc := h2 hall
    show score_document document rule_config = _
    simp only [score_document]
    rw [hacc]
  · intro hpos
    obtain ⟨w, hfind, hres, hscore⟩ := h3 hpos
    refine ⟨w, hfind, ?_, ?_, ?_, ?_⟩
    · show (score_document document rule_config).best_bucket = w.1
      simp only [score_document]
      rw [hres]
    · show (score_document document rule_config).score = _
      simp only [score_document]
      rw [hres]
    · show (score_document document rule_config).reasons = _
      simp only [score_document]
      rw [hres]
    · intro pr hpr
      have hm := foldl_max_mem_le
        (rule_config.buckets.map (fun q => (bucketScore document rule_config.weights q.2).1))
        0 (bucketScore document rule_config.weights pr.2).1 (List.mem_map_of_mem _ hpr)
      rw [hscore]
      exact hm

/-- Witness for C7: the unmatched document falls back to archive, and the
matched document is won by the first maximal bucket. -/
theorem claim_C7_score_document_witness :
    score_document wDocReadme wRules
        = { doc_id := "doc-readme", best_bucket := "archive", score := 0,
            reasons := ["fallback"] }
    ∧ ∃ winner, wRules.buckets.find?
          (fun pr => decide ((wRules.buckets.map
            (fun q => (bucketScore wDocApp wRules.weights q.2).1)).foldl max 0
              ≤ (bucketScore wDocApp wRules.weights pr.2).1)) = some winner
        ∧ (score_document wDocApp wRules).best_bucket = winner.1
        ∧ (score_document wDocApp wRules).score
            = (bucketScore wDocApp wRules.weights winner.2).1
        ∧ (score_document wDocApp wRules).reasons
            = (if (bucketScore wDocApp wRules.weights winner.2).2 = []
                then ["matched"] else (bucketScore wDocApp wRules.weights winner.2).2)
        ∧ ∀ pr ∈ wRules.buckets,
            (bucketScore wDocApp wRules.weights pr.2).1
              ≤ (bucketScore wDocApp wRules.weights winner.2).1 :=
  ⟨(claim_C7_score_document wDocReadme wRules).2.2.1 (by decide),
   (claim_C7_score_document wDocApp wRules).2.2.2 (by decide)⟩

/-- C8: cluster_documents assigns the sequential identifiers project_001,
project_002 and so on, positionally over its project list, whose labels are
exactly the lexicographically sorted distinct inferred labels, hence strictly
increasing; being a pure function of its inputs, repeated runs reproduce the
same labels and identifiers. -/
theorem claim_C8_cluster_order (documents : List ClusterInput) (hints : List String)
    (score_map : List (String × String)) :
    (cluster_documents documents hints score_map).projects.map (fun p => p.project_id)
        = (List.range (cluster_documents documents hints score_map).projects.length).map
            (fun i => "project_" ++ pad3 (i + 1))
    ∧ ((cluster_documents documents hints score_map).projects.map
        (fun p => p.project_label)).Pairwise (fun a b : String => a < b)
    ∧ (cluster_documents documents hints score_map).projects.map
        (fun p => p.project_label) = sortedLabels documents hints := by
  have hids := mkProjects_ids documents hints score_map (sortedLabels documents hints) 0
  have hlabels := mkProjects_labels documents hints score_map (sortedLabels documents hints) 0
  have hlen : (mkProjects documents hints score_map 0 (sortedLabels documents hints)).length
      = (sortedLabels documents hints).length := by
    have h := congrArg List.length hlabels
    simpa using h
  refine ⟨?_, ?_, ?_⟩
  · show (mkProjects documents hints score_map 0 (sortedLabels documents hints)).map
        (fun p => p.project_id) = _
    rw [hids]
    have hlen2 : (cluster_documents documents hints score_map).projects.length
        = (sortedLabels documents hints).length := hlen
    rw [hlen2]
    apply List.map_congr_left
    intro j _
    have h : 0 + j + 1 = j + 1 := by omega
    rw [h]
  · show ((mkProjects documents hints score_map 0 (sortedLabels documents hints)).map
        (fun p => p.project_label)).Pairwise (fun a b : String => a < b)
    rw [hlabels]
    exact sortedLabels_strict documents hints
  · exact hlabels


end Devmind
